import Mathlib

/-!
# HexaMapper — verification of the chunked, layered cell-storage engine

Shallow embedding of the core modules of the HexaMapper repository:

* `src/modules/map_helpers.py`   — coordinate mapper (pure functions)
* `src/modules/chunk_engine.py`  — `ChunkLayer` and `ChunkEngine`
* `src/modules/commands/paint_cell_command.py`, `erase_cell_command.py`
* `src/modules/history_manager.py`
* `src/modules/file_manager.py`  — save/load (modelled at record level)

Cell data (`np.float32` RGBA vectors) is modelled with exact rationals,
world positions (`float`) with real numbers, Python `int` with `ℤ`.
Python dictionaries are modelled as functions to `Option`, Python sets as
duplicate-free lists (membership-tested insertion/removal mirrors the
set operations actually performed by the source).
-/

namespace HexaMapper

/-- One cell's data: an RGBA vector (`data_dimensions = 4` floats),
modelled with exact rationals. -/
structure Cell where
  r : ℚ
  g : ℚ
  b : ℚ
  a : ℚ
deriving DecidableEq, Repr

/-- `np.zeros(data_dimensions)` — the value every freshly allocated chunk cell
holds and the value `delete_cell_data` writes back. -/
def zeroCell : Cell := ⟨0, 0, 0, 0⟩

/-- `HexMapCustomConfig.default_cell_color = Color("#888888FF")`, converted by
`RGBAColor.to_floats()`: each byte divided by 255 (`schema.py`, `utils/color.py`). -/
def default_cell_color : Cell := ⟨136/255, 136/255, 136/255, 255/255⟩

/-- `HexMapEngineConfig.chunk_size` default (`schema.py`). -/
def default_chunk_size : ℤ := 16

/-! ## Coordinate mapper (`map_helpers.py`)

`global_coord_to_chunk_coord` uses Python's `//` and `%`, i.e. floor
division and floor modulus (sign of the divisor), which for integers are
`Int.fdiv` and `Int.fmod`. -/

/-- `map_helpers.global_coord_to_chunk_coord(global_coord, chunk_size)`:
`(x // chunk_size, y // chunk_size, x % chunk_size, y % chunk_size)`. -/
def global_coord_to_chunk_coord (global_coord : ℤ × ℤ) (chunk_size : ℤ) :
    ℤ × ℤ × ℤ × ℤ :=
  (global_coord.1.fdiv chunk_size,
   global_coord.2.fdiv chunk_size,
   global_coord.1.fmod chunk_size,
   global_coord.2.fmod chunk_size)

/-- C2: for every pair of integers and every positive `chunk_size`,
`global_coord_to_chunk_coord` returns local coordinates in `[0, chunk_size)`
and chunk/local parts that reconstruct the input:
`chunk_x * chunk_size + local_x = x` and `chunk_y * chunk_size + local_y = y`. -/
theorem global_coord_to_chunk_coord_correct (x y chunk_size : ℤ)
    (hcs : 0 < chunk_size) :
    0 ≤ (global_coord_to_chunk_coord (x, y) chunk_size).2.2.1 ∧
    (global_coord_to_chunk_coord (x, y) chunk_size).2.2.1 < chunk_size ∧
    0 ≤ (global_coord_to_chunk_coord (x, y) chunk_size).2.2.2 ∧
    (global_coord_to_chunk_coord (x, y) chunk_size).2.2.2 < chunk_size ∧
    (global_coord_to_chunk_coord (x, y) chunk_size).1 * chunk_size +
      (global_coord_to_chunk_coord (x, y) chunk_size).2.2.1 = x ∧
    (global_coord_to_chunk_coord (x, y) chunk_size).2.1 * chunk_size +
      (global_coord_to_chunk_coord (x, y) chunk_size).2.2.2 = y := by
  have hne : chunk_size ≠ 0 := ne_of_gt hcs
  have hle : 0 ≤ chunk_size := le_of_lt hcs
  refine ⟨?_, ?_, ?_, ?_, ?_, ?_⟩
  · simpa [global_coord_to_chunk_coord, Int.fmod_eq_emod _ hle] using
      Int.emod_nonneg x hne
  · simpa [global_coord_to_chunk_coord, Int.fmod_eq_emod _ hle] using
      Int.emod_lt_of_pos x hcs
  · simpa [global_coord_to_chunk_coord, Int.fmod_eq_emod _ hle] using
      Int.emod_nonneg y hne
  · simpa [global_coord_to_chunk_coord, Int.fmod_eq_emod _ hle] using
      Int.emod_lt_of_pos y hcs
  · simp only [global_coord_to_chunk_coord, Int.fmod_eq_emod _ hle,
      Int.fdiv_eq_ediv _ hle]
    have := Int.ediv_add_emod x chunk_size
    linarith [this]
  · simp only [global_coord_to_chunk_coord, Int.fmod_eq_emod _ hle,
      Int.fdiv_eq_ediv _ hle]
    have := Int.ediv_add_emod y chunk_size
    linarith [this]

/-- Witness for C2 at `x = -5`, `y = 7`, `chunk_size = 16`:
`(-5) // 16 = -1`, `(-5) % 16 = 11`, and `-1 * 16 + 11 = -5`. -/
theorem global_coord_to_chunk_coord_correct_witness :
    0 ≤ (global_coord_to_chunk_coord (-5, 7) 16).2.2.1 ∧
    (global_coord_to_chunk_coord (-5, 7) 16).2.2.1 < 16 ∧
    0 ≤ (global_coord_to_chunk_coord (-5, 7) 16).2.2.2 ∧
    (global_coord_to_chunk_coord (-5, 7) 16).2.2.2 < 16 ∧
    (global_coord_to_chunk_coord (-5, 7) 16).1 * 16 +
      (global_coord_to_chunk_coord (-5, 7) 16).2.2.1 = -5 ∧
    (global_coord_to_chunk_coord (-5, 7) 16).2.1 * 16 +
      (global_coord_to_chunk_coord (-5, 7) 16).2.2.2 = 7 :=
  global_coord_to_chunk_coord_correct (-5) 7 16 (by norm_num)

/-! ## Chunk storage (`chunk_engine.py`) -/

/-- A chunk's data array (`np.ndarray` of shape
`(chunk_size, chunk_size, data_dimensions)`), modelled as a total function on
local indices; only indices in `[0, chunk_size)` are ever addressed. -/
def ChunkData := ℤ → ℤ → Cell

/-- The array a fresh chunk holds:
`np.zeros((chunk_size, chunk_size, data_dims), dtype=np.float32)`
(`ChunkLayer._get_or_create_chunk`). The source fetches
`config.hex_map_custom.default_cell_color` into a local variable on the line
above but never uses it; the allocated array is zero-filled. -/
def new_chunk : ChunkData := fun _ _ => zeroCell

/-- `set.add` on a Python set modelled as a duplicate-free list. -/
def setInsert {α : Type} [DecidableEq α] (s : List α) (x : α) : List α :=
  if x ∈ s then s else s ++ [x]

/-- One `ChunkLayer`: a sparse chunk map, the user-modified cell set, the
dirty-chunk buffer, a visibility flag and a display name. -/
structure ChunkLayer where
  desc : String
  is_visible : Bool
  chunks : ℤ × ℤ → Option ChunkData
  modified_cells : List (ℤ × ℤ)
  dirty_chunks : List (ℤ × ℤ)

/-- `ChunkLayer.__init__(config, desc="Layer 0")`. -/
def ChunkLayer.mk_init (desc : String := "Layer 0") : ChunkLayer :=
  { desc := desc, is_visible := true, chunks := fun _ => none,
    modified_cells := [], dirty_chunks := [] }

/-- `ChunkLayer._get_or_create_chunk(chunk_coord)`: return the stored chunk,
allocating a zero-filled one first when the coordinate is absent. The second
component is the layer after the possible allocation. -/
def ChunkLayer.get_or_create_chunk (l : ChunkLayer) (chunk_coord : ℤ × ℤ) :
    ChunkData × ChunkLayer :=
  match l.chunks chunk_coord with
  | none =>
      (new_chunk,
       { l with chunks := fun c => if c = chunk_coord then some new_chunk else l.chunks c })
  | some d => (d, l)

/-- `ChunkLayer.set_cell_data(global_coords, data)`. -/
def ChunkLayer.set_cell_data (chunk_size : ℤ) (l : ChunkLayer)
    (global_coords : ℤ × ℤ) (data : Cell) : ChunkLayer :=
  match global_coord_to_chunk_coord global_coords chunk_size with
  | (chunk_x, chunk_y, local_x, local_y) =>
      let p := l.get_or_create_chunk (chunk_x, chunk_y)
      let chunk' : ChunkData :=
        fun i j => if i = local_x ∧ j = local_y then data else p.1 i j
      { p.2 with
        chunks := fun c => if c = (chunk_x, chunk_y) then some chunk' else p.2.chunks c,
        dirty_chunks := setInsert p.2.dirty_chunks (chunk_x, chunk_y),
        modified_cells := setInsert p.2.modified_cells global_coords }

/-- `ChunkLayer.delete_cell_data(global_coords)`: a no-op unless the cell is in
`modified_cells`; otherwise writes `np.zeros(data_dimensions)` into the cell,
marks the chunk dirty and removes the cell from `modified_cells`. -/
def ChunkLayer.delete_cell_data (chunk_size : ℤ) (l : ChunkLayer)
    (global_coords : ℤ × ℤ) : ChunkLayer :=
  if global_coords ∈ l.modified_cells then
    match global_coord_to_chunk_coord global_coords chunk_size with
    | (chunk_x, chunk_y, local_x, local_y) =>
        let p := l.get_or_create_chunk (chunk_x, chunk_y)
        let chunk' : ChunkData :=
          fun i j => if i = local_x ∧ j = local_y then zeroCell else p.1 i j
        { p.2 with
          chunks := fun c => if c = (chunk_x, chunk_y) then some chunk' else p.2.chunks c,
          dirty_chunks := setInsert p.2.dirty_chunks (chunk_x, chunk_y),
          modified_cells := p.2.modified_cells.erase global_coords }
  else l

/-- `ChunkLayer.get_cell_data(global_coords)`; reading allocates the containing
chunk when absent, so the layer after the read is returned as well. -/
def ChunkLayer.get_cell_data (chunk_size : ℤ) (l : ChunkLayer)
    (global_coords : ℤ × ℤ) : Cell × ChunkLayer :=
  match global_coord_to_chunk_coord global_coords chunk_size with
  | (chunk_x, chunk_y, local_x, local_y) =>
      let p := l.get_or_create_chunk (chunk_x, chunk_y)
      (p.1 local_x local_y, p.2)

/-- `ChunkLayer.get_chunk_data(chunk_coord)` (delegates to
`_get_or_create_chunk`). -/
def ChunkLayer.get_chunk_data (l : ChunkLayer) (chunk_coord : ℤ × ℤ) :
    ChunkData × ChunkLayer :=
  l.get_or_create_chunk chunk_coord

/-- Value view of a layer's chunk: the stored array, or the zero-filled fresh
array when the chunk does not exist (what an allocate-on-read would create). -/
def ChunkLayer.chunk_at (l : ChunkLayer) (chunk_coord : ℤ × ℤ) : ChunkData :=
  (l.chunks chunk_coord).getD new_chunk

/-- Value view of one cell of a layer. -/
def ChunkLayer.cell_at (chunk_size : ℤ) (l : ChunkLayer) (global_coords : ℤ × ℤ) : Cell :=
  match global_coord_to_chunk_coord global_coords chunk_size with
  | (chunk_x, chunk_y, local_x, local_y) => l.chunk_at (chunk_x, chunk_y) local_x local_y

/-- Allocation-on-read returns exactly the `chunk_at` value. -/
theorem ChunkLayer.get_chunk_data_fst (l : ChunkLayer) (cc : ℤ × ℤ) :
    (l.get_chunk_data cc).1 = l.chunk_at cc := by
  cases h : l.chunks cc <;>
    simp [ChunkLayer.get_chunk_data, ChunkLayer.get_or_create_chunk, ChunkLayer.chunk_at, h]

/-- Allocation-on-read changes no chunk value. -/
theorem ChunkLayer.chunk_at_get_or_create (l : ChunkLayer) (cc cc' : ℤ × ℤ) :
    (l.get_or_create_chunk cc).2.chunk_at cc' = l.chunk_at cc' := by
  cases h : l.chunks cc with
  | none =>
      by_cases hcc : cc' = cc <;>
        simp [ChunkLayer.get_or_create_chunk, ChunkLayer.chunk_at, h, hcc]
  | some d => simp [ChunkLayer.get_or_create_chunk, h]

/-- `ChunkLayer.get_cell_data` returns exactly the `cell_at` value. -/
theorem ChunkLayer.get_cell_data_fst (chunk_size : ℤ) (l : ChunkLayer) (g : ℤ × ℤ) :
    (l.get_cell_data chunk_size g).1 = l.cell_at chunk_size g := by
  cases h : l.chunks ((global_coord_to_chunk_coord g chunk_size).1,
      (global_coord_to_chunk_coord g chunk_size).2.1) <;>
    simp [ChunkLayer.get_cell_data, ChunkLayer.get_or_create_chunk, ChunkLayer.cell_at,
      ChunkLayer.chunk_at, global_coord_to_chunk_coord, h] <;>
    simp [global_coord_to_chunk_coord] at h <;> simp [h]

/-- C5 (code bug): `_get_or_create_chunk` zero-fills a newly allocated chunk.
Every cell of the fresh chunk is `(0,0,0,0)`, which is not the configured
default cell color `#888888FF` that the claim, the function's own docstring
and `tests/modules/test_chunk_engine.py::test_get_or_create_chunk_new`
require. -/
theorem get_or_create_chunk_zero_fills :
    (∀ i j : ℤ, ((ChunkLayer.mk_init "Layer 0").get_or_create_chunk (0, 0)).1 i j = zeroCell) ∧
    zeroCell ≠ default_cell_color := by
  refine ⟨fun i j => rfl, ?_⟩
  norm_num [zeroCell, default_cell_color, Cell.mk.injEq]

/-! ## Layer stack (`ChunkEngine` in `chunk_engine.py`) -/

/-- The layer stack: ordered layers, the active-layer index, the
name counter and the stack-level structural dirty buffer. -/
structure ChunkEngine where
  layers : List ChunkLayer
  active_layer_idx : ℕ
  name_cnt : ℕ
  dirty_chunks : List (ℤ × ℤ)

/-- `ChunkEngine.__init__(config)`. -/
def ChunkEngine.mk_init : ChunkEngine :=
  { layers := [ChunkLayer.mk_init], active_layer_idx := 0, name_cnt := 1,
    dirty_chunks := [] }

/-- The layer object `self.layers[idx]`. Python raises `IndexError` for an
out-of-range index; the model returns a fresh layer there and every theorem
below addresses only in-range indices. -/
def ChunkEngine.layerD (e : ChunkEngine) (idx : ℕ) : ChunkLayer :=
  e.layers.getD idx ChunkLayer.mk_init

/-- `ChunkEngine.set_cell_data(global_coord, data, layer)` with an explicit
layer; the captured Python layer object is modelled by its index. -/
def ChunkEngine.set_cell_data_on (chunk_size : ℤ) (e : ChunkEngine) (idx : ℕ)
    (global_coord : ℤ × ℤ) (data : Cell) : ChunkEngine :=
  { e with layers :=
      e.layers.set idx ((e.layerD idx).set_cell_data chunk_size global_coord data) }

/-- `ChunkEngine.set_cell_data(global_coord, data)` (`layer=None`: the active
layer). -/
def ChunkEngine.set_cell_data (chunk_size : ℤ) (e : ChunkEngine)
    (global_coord : ℤ × ℤ) (data : Cell) : ChunkEngine :=
  e.set_cell_data_on chunk_size e.active_layer_idx global_coord data

/-- `ChunkEngine.delete_cell_data(global_coord, layer)` with an explicit layer. -/
def ChunkEngine.delete_cell_data_on (chunk_size : ℤ) (e : ChunkEngine) (idx : ℕ)
    (global_coord : ℤ × ℤ) : ChunkEngine :=
  { e with layers :=
      e.layers.set idx ((e.layerD idx).delete_cell_data chunk_size global_coord) }

/-- `ChunkEngine.delete_cell_data(global_coord)` (active layer). -/
def ChunkEngine.delete_cell_data (chunk_size : ℤ) (e : ChunkEngine)
    (global_coord : ℤ × ℤ) : ChunkEngine :=
  e.delete_cell_data_on chunk_size e.active_layer_idx global_coord

/-- `ChunkEngine.get_cell_data(global_coord)` (active layer); the read can
allocate a chunk, so the engine after the read is returned as well. -/
def ChunkEngine.get_cell_data (chunk_size : ℤ) (e : ChunkEngine)
    (global_coord : ℤ × ℤ) : Cell × ChunkEngine :=
  let p := (e.layerD e.active_layer_idx).get_cell_data chunk_size global_coord
  (p.1, { e with layers := e.layers.set e.active_layer_idx p.2 })

/-- `ChunkEngine.get_modified_cells_in_active_layer()`. -/
def ChunkEngine.get_modified_cells_in_active_layer (e : ChunkEngine) : List (ℤ × ℤ) :=
  (e.layerD e.active_layer_idx).modified_cells

/-- `ChunkEngine.insert_layer()` as called by `load_map` (both arguments
defaulted): `desc = f"Layer {name_cnt}"`, `name_cnt += 1`,
`idx = active_layer_idx + 1`, `layers.insert(idx, ChunkLayer(config, desc))`,
`active_layer_idx = idx`. -/
def ChunkEngine.insert_layer (e : ChunkEngine) : ChunkEngine :=
  { e with
    layers := e.layers.insertIdx (e.active_layer_idx + 1)
      (ChunkLayer.mk_init ("Layer " ++ toString e.name_cnt)),
    name_cnt := e.name_cnt + 1,
    active_layer_idx := e.active_layer_idx + 1 }

/-- `ChunkEngine.reset()`: record the chunks of every layer's modified cells in
the stack-level dirty buffer, then replace the stack with one fresh layer. -/
def ChunkEngine.reset (chunk_size : ℤ) (e : ChunkEngine) : ChunkEngine :=
  { layers := [ChunkLayer.mk_init],
    active_layer_idx := 0,
    name_cnt := 1,
    dirty_chunks :=
      e.layers.foldl (fun acc l =>
        l.modified_cells.foldl (fun acc2 cell =>
          setInsert acc2 ((global_coord_to_chunk_coord cell chunk_size).1,
                          (global_coord_to_chunk_coord cell chunk_size).2.1)) acc)
        e.dirty_chunks }

/-- The vectorized masked overwrite
`final_chunk[mask] = top_layer_data[mask]` with `mask = top[:, :, 3] > 0`:
pointwise, a cell of `acc` is replaced by the top layer's cell exactly when
the top layer's alpha channel there is positive. -/
def mask_overlay (acc top : ChunkData) : ChunkData :=
  fun i j => if (top i j).a > 0 then top i j else acc i j

/-- `ChunkEngine.get_chunk_data(chunk_coord)` with `layer=None`: composite all
visible layers bottom-to-top. With no visible layer the result is a chunk
filled with `default_cell_color.to_floats()` (`np.full`); otherwise the loop
folds the masked overwrite over the remaining visible layers starting from a
copy of the bottommost visible layer's chunk. Reading a layer's chunk
allocates it when absent, which never changes any cell value
(`ChunkLayer.chunk_at_get_or_create`, `ChunkLayer.get_chunk_data_fst`), so the
composite is expressed over the `chunk_at` values. -/
def ChunkEngine.get_chunk_data (e : ChunkEngine) (chunk_coord : ℤ × ℤ) : ChunkData :=
  match e.layers.filter (fun l => l.is_visible) with
  | [] => fun _ _ => default_cell_color
  | bottom :: rest =>
      rest.foldl (fun acc l => mask_overlay acc (l.chunk_at chunk_coord))
        (bottom.chunk_at chunk_coord)

/-- The claim's per-cell compositing rule: start from the bottommost visible
layer's cell and let each subsequent visible layer, in stack order, overwrite
the cell exactly when that layer's alpha channel there is greater than zero. -/
def composite_cell_spec (bottom : Cell) (tops : List Cell) : Cell :=
  tops.foldl (fun acc c => if c.a > 0 then c else acc) bottom

/-- Folding the array-level masked overwrite agrees pointwise with the
per-cell compositing rule. -/
theorem foldl_mask_overlay_apply (cc : ℤ × ℤ) (ls : List ChunkLayer)
    (acc : ChunkData) (i j : ℤ) :
    (ls.foldl (fun a l => mask_overlay a (l.chunk_at cc)) acc) i j =
      composite_cell_spec (acc i j) (ls.map (fun l => l.chunk_at cc i j)) := by
  induction ls generalizing acc with
  | nil => rfl
  | cons hd tl ih =>
      simp only [List.foldl_cons, List.map_cons]
      rw [ih]
      rfl

/-- C1: `ChunkEngine.get_chunk_data` without a layer argument composites the
visible layers: with no visible layer every cell is the default cell color;
otherwise every cell equals the bottommost visible layer's cell overwritten,
for each subsequent visible layer in stack order, whenever that layer's alpha
channel at the cell is greater than zero. Invisible layers are filtered out
and contribute nothing. -/
theorem get_chunk_data_composites (e : ChunkEngine) (chunk_coord : ℤ × ℤ) (i j : ℤ) :
    match e.layers.filter (fun l => l.is_visible) with
    | [] => e.get_chunk_data chunk_coord i j = default_cell_color
    | bottom :: rest =>
        e.get_chunk_data chunk_coord i j =
          composite_cell_spec (bottom.chunk_at chunk_coord i j)
            (rest.map (fun l => l.chunk_at chunk_coord i j)) := by
  cases h : e.layers.filter (fun l => l.is_visible) with
  | nil => simp [ChunkEngine.get_chunk_data, h]
  | cons bottom rest =>
      simp only [ChunkEngine.get_chunk_data, h]
      exact foldl_mask_overlay_apply chunk_coord rest (bottom.chunk_at chunk_coord) i j

/-! ## Commands (`commands/paint_cell_command.py`, `commands/erase_cell_command.py`) -/

/-- `{coord: chunk_engine.get_cell_data(coord).copy() for coord in global_coords}`:
builds the dictionary left to right, threading the allocate-on-read side
effect through the engine. Looking up a key absent from a Python dictionary
raises `KeyError`; the model returns `zeroCell` there, and the commands only
ever look up members of `global_coords`. -/
def capture_prev_colors (chunk_size : ℤ) :
    List (ℤ × ℤ) → ChunkEngine → ((ℤ × ℤ) → Cell) → (((ℤ × ℤ) → Cell) × ChunkEngine)
  | [], e, m => (m, e)
  | c :: rest, e, m =>
      let p := e.get_cell_data chunk_size c
      capture_prev_colors chunk_size rest p.2 (Function.update m c p.1)

/-- `PaintCellCommand`: the captured layer object
(`self.layer = chunk_engine.get_active_layer()`) is modelled by its index. -/
structure PaintCellCommand where
  layer_idx : ℕ
  global_coords : List (ℤ × ℤ)
  new_color : Cell
  previous_color : (ℤ × ℤ) → Cell
  is_new : (ℤ × ℤ) → Bool

/-- `PaintCellCommand.__init__(chunk_engine, global_coords, new_color)`:
captures the active layer, the previous color of every coordinate (reading
through the engine, which can allocate chunks — hence the returned engine)
and the per-coordinate `is_new` flag
(`coord not in chunk_engine.get_modified_cells_in_active_layer()`). -/
def PaintCellCommand.create (chunk_size : ℤ) (e : ChunkEngine)
    (global_coords : List (ℤ × ℤ)) (new_color : Cell) :
    PaintCellCommand × ChunkEngine :=
  let p := capture_prev_colors chunk_size global_coords e (fun _ => zeroCell)
  ({ layer_idx := e.active_layer_idx,
     global_coords := global_coords,
     new_color := new_color,
     previous_color := p.1,
     is_new := fun c => decide (c ∉ p.2.get_modified_cells_in_active_layer) }, p.2)

/-- `PaintCellCommand.execute()`: write the new color to every coordinate
(through the engine's default, i.e. active, layer). -/
def PaintCellCommand.execute (chunk_size : ℤ) (cmd : PaintCellCommand)
    (e : ChunkEngine) : ChunkEngine :=
  cmd.global_coords.foldl (fun acc c => acc.set_cell_data chunk_size c cmd.new_color) e

/-- `PaintCellCommand.undo()`: for previously-unmodified coordinates call
`delete_cell_data` on the captured layer, otherwise write back the captured
previous color on the captured layer. -/
def PaintCellCommand.undo (chunk_size : ℤ) (cmd : PaintCellCommand)
    (e : ChunkEngine) : ChunkEngine :=
  cmd.global_coords.foldl (fun acc c =>
    if cmd.is_new c then acc.delete_cell_data_on chunk_size cmd.layer_idx c
    else acc.set_cell_data_on chunk_size cmd.layer_idx c (cmd.previous_color c)) e

/-- C3 rejection scenario: paint the previously-unmodified cell `(0,0)` red on
a fresh engine (default 16-cell chunks), then undo. -/
def paint_scene : PaintCellCommand × ChunkEngine :=
  PaintCellCommand.create default_chunk_size ChunkEngine.mk_init [(0, 0)] ⟨1, 0, 0, 1⟩

/-- The engine after `execute()` followed by `undo()` of the C3 scenario. -/
def paint_scene_after_undo : ChunkEngine :=
  paint_scene.1.undo default_chunk_size
    (paint_scene.1.execute default_chunk_size paint_scene.2)

/-- C3 (code bug): undoing the paint of a previously-unmodified cell removes
it from `modified_cells` (that part of the claim holds) but leaves the stored
cell value at `np.zeros`, not at the configured default cell color `#888888FF`
required by the claim, by `delete_cell_data`'s docstring-level contract and by
`tests/modules/test_chunk_engine.py::test_delete_cell_data`. -/
theorem paint_undo_leaves_zero_not_default :
    (0, 0) ∉ (paint_scene_after_undo.layerD 0).modified_cells ∧
    (paint_scene_after_undo.layerD 0).cell_at default_chunk_size (0, 0) = zeroCell ∧
    zeroCell ≠ default_cell_color := by
  refine ⟨by decide, by decide, ?_⟩
  norm_num [zeroCell, default_cell_color, Cell.mk.injEq]

/-- The instance attributes assigned in `ChunkLayer.__init__`
(`chunk_engine.py`, lines 13–22). -/
def chunkLayerAttrs : List String :=
  ["desc", "is_visible", "config", "chunks", "modified_cells", "dirty_chunks"]

/-- The instance attributes assigned in `ChunkEngine.__init__`
(`chunk_engine.py`, lines 130–136): note there is no `modified_cells`. -/
def chunkEngineAttrs : List String :=
  ["config", "layers", "active_layer_idx", "name_cnt", "dirty_chunks"]

/-- `EraseCellCommand` (never successfully constructed, see below). -/
structure EraseCellCommand where
  global_coords : List (ℤ × ℤ)
  previous_color : (ℤ × ℤ) → Cell
  is_new : (ℤ × ℤ) → Bool

/-- `EraseCellCommand.__init__(chunk_engine, global_coords)`: line 8 captures
the previous colors (allocate-on-read threading exactly as for Paint); the
dict comprehension on line 9 then evaluates
`coord not in self.chunk_engine.modified_cells` once per coordinate. A dict
comprehension never evaluates its body for an empty iterable, so with
`global_coords = []` construction succeeds (with empty dictionaries and a
vacuous `is_new`); on the first coordinate of a non-empty list the attribute
lookup runs, and `ChunkEngine` defines no attribute `modified_cells`
(`chunkEngineAttrs` — that attribute belongs to `ChunkLayer`), so Python
raises `AttributeError` and no command object is constructed. The non-empty
`ok` branch is unreachable; its `is_new` placeholder is constantly `false`. -/
def EraseCellCommand.create (chunk_size : ℤ) (e : ChunkEngine)
    (global_coords : List (ℤ × ℤ)) : Except String (EraseCellCommand × ChunkEngine) :=
  let p := capture_prev_colors chunk_size global_coords e (fun _ => zeroCell)
  match global_coords with
  | [] =>
      Except.ok ({ global_coords := [], previous_color := p.1,
                   is_new := fun _ => false }, p.2)
  | _ :: _ =>
      if "modified_cells" ∈ chunkEngineAttrs then
        Except.ok ({ global_coords := global_coords, previous_color := p.1,
                     is_new := fun _ => false }, p.2)
      else
        Except.error "AttributeError: ChunkEngine object has no attribute modified_cells"

/-- C4 (code bug): constructing an `EraseCellCommand` for any non-empty
coordinate list fails, because `EraseCellCommand.__init__` reads
`chunk_engine.modified_cells` for each coordinate and the `ChunkEngine`
class assigns no such attribute (it belongs to `ChunkLayer`; the paint
command uses `get_modified_cells_in_active_layer()` instead), so the
command can never capture previously-modified status, erase, or undo. -/
theorem erase_cell_command_init_raises (chunk_size : ℤ) (e : ChunkEngine)
    (coords : List (ℤ × ℤ)) (hne : coords ≠ []) :
    EraseCellCommand.create chunk_size e coords =
      Except.error "AttributeError: ChunkEngine object has no attribute modified_cells" ∧
    "modified_cells" ∈ chunkLayerAttrs ∧ "modified_cells" ∉ chunkEngineAttrs := by
  refine ⟨?_, by decide, by decide⟩
  cases coords with
  | nil => exact absurd rfl hne
  | cons c rest => rfl

/-- Witness for C4: erasing the single coordinate `(0,0)` on a fresh engine
already raises at construction. -/
theorem erase_cell_command_init_raises_witness :
    EraseCellCommand.create default_chunk_size ChunkEngine.mk_init [(0, 0)] =
      Except.error "AttributeError: ChunkEngine object has no attribute modified_cells" ∧
    "modified_cells" ∈ chunkLayerAttrs ∧ "modified_cells" ∉ chunkEngineAttrs :=
  erase_cell_command_init_raises default_chunk_size ChunkEngine.mk_init [(0, 0)]
    (by decide)

/-! ## History manager (`history_manager.py`)

`HistoryManager` is generic over command objects with `execute`/`undo`
methods (`commands/base_command.py`); a command is modelled as a pair of
state transformers over an abstract world type `W` (in the application,
`W` is the chunk engine the commands mutate). Since commands act on shared
mutable state, the world is carried alongside the manager's stacks. -/

/-- `Command` (`base_command.py`): an object with `execute()` and `undo()`. -/
structure Command (W : Type) where
  run_execute : W → W
  run_undo : W → W

/-- The history manager's state: the two stacks of actions (each action is a
list of commands), the in-progress command buffer, and the world the
commands mutate. -/
structure HistoryManager (W : Type) where
  undo_stack : List (List (Command W))
  redo_stack : List (List (Command W))
  command_buffer : List (Command W)
  world : W

/-- `HistoryManager.execute(command)`: run the command now, append it to the
in-progress buffer, and clear the redo stack unconditionally. -/
def HistoryManager.execute {W : Type} (s : HistoryManager W) (c : Command W) :
    HistoryManager W :=
  { s with world := c.run_execute s.world,
           command_buffer := s.command_buffer ++ [c],
           redo_stack := [] }

/-- `HistoryManager.finish_action()`: if the buffer is non-empty, push a copy
of it onto the undo stack as one action and clear the buffer. -/
def HistoryManager.finish_action {W : Type} (s : HistoryManager W) : HistoryManager W :=
  if s.command_buffer.isEmpty then s
  else { s with undo_stack := s.undo_stack ++ [s.command_buffer],
                command_buffer := [] }

/-- `for command in reversed(command_block): command.undo()`. -/
def undoBlock {W : Type} (block : List (Command W)) (w : W) : W :=
  block.reverse.foldl (fun w c => c.run_undo w) w

/-- `for command in command_block: command.execute()`. -/
def execBlock {W : Type} (block : List (Command W)) (w : W) : W :=
  block.foldl (fun w c => c.run_execute w) w

/-- `HistoryManager.undo()`: no-op when the undo stack is empty; otherwise pop
the most recent action, undo its commands in reverse order, and push the
action onto the redo stack. -/
def HistoryManager.undo {W : Type} (s : HistoryManager W) : HistoryManager W :=
  match s.undo_stack.getLast? with
  | none => s
  | some block =>
      { s with undo_stack := s.undo_stack.dropLast,
               redo_stack := s.redo_stack ++ [block],
               world := undoBlock block s.world }

/-- `HistoryManager.redo()`: no-op when the redo stack is empty; otherwise pop
the most recent action, re-execute its commands in original order, and push
the action back onto the undo stack. -/
def HistoryManager.redo {W : Type} (s : HistoryManager W) : HistoryManager W :=
  match s.redo_stack.getLast? with
  | none => s
  | some block =>
      { s with redo_stack := s.redo_stack.dropLast,
               undo_stack := s.undo_stack ++ [block],
               world := execBlock block s.world }

/-- Executing a list of commands one by one through the manager. -/
def execCommands {W : Type} (cs : List (Command W)) (s : HistoryManager W) :
    HistoryManager W :=
  cs.foldl HistoryManager.execute s

theorem execCommands_spec {W : Type} (cs : List (Command W)) (s : HistoryManager W) :
    execCommands cs s =
      { undo_stack := s.undo_stack,
        redo_stack := if cs.isEmpty then s.redo_stack else [],
        command_buffer := s.command_buffer ++ cs,
        world := execBlock cs s.world } := by
  induction cs generalizing s with
  | nil => simp [execCommands, execBlock]
  | cons c rest ih =>
      simp only [execCommands, List.foldl_cons] at *
      rw [ih]
      simp [HistoryManager.execute, execBlock, List.isEmpty_iff]

/-- C6: executing commands `cs` (at least one) starting from a manager with an
empty in-progress buffer, then one `finish_action`: the commands become one
action on the undo stack; a single `undo` reverts all of them, calling each
command's `undo` in reverse order of execution, and moves the whole action
onto the redo stack; a subsequent `redo` re-executes all of them in original
order and moves the action back onto the undo stack; and executing any new
command unconditionally clears the redo stack, so a redo attempted right
after a fresh edit is a no-op. -/
theorem history_group_undo_redo {W : Type} (s : HistoryManager W)
    (cs : List (Command W)) (hne : cs ≠ []) (hbuf : s.command_buffer = []) :
    (execCommands cs s).finish_action =
      { undo_stack := s.undo_stack ++ [cs], redo_stack := [],
        command_buffer := [], world := execBlock cs s.world } ∧
    ((execCommands cs s).finish_action).undo =
      { undo_stack := s.undo_stack, redo_stack := [cs],
        command_buffer := [], world := undoBlock cs (execBlock cs s.world) } ∧
    (((execCommands cs s).finish_action).undo).redo =
      { undo_stack := s.undo_stack ++ [cs], redo_stack := [],
        command_buffer := [],
        world := execBlock cs (undoBlock cs (execBlock cs s.world)) } ∧
    (∀ (t : HistoryManager W) (c : Command W),
      (t.execute c).redo_stack = [] ∧ (t.execute c).redo = t.execute c) := by
  have hcs : cs.isEmpty = false := by
    cases cs with
    | nil => exact absurd rfl hne
    | cons a l => rfl
  have h2 : (execCommands cs s).finish_action =
      { undo_stack := s.undo_stack ++ [cs], redo_stack := [],
        command_buffer := [], world := execBlock cs s.world } := by
    rw [execCommands_spec cs s]
    simp [HistoryManager.finish_action, hbuf, hcs]
  have h3 : ((execCommands cs s).finish_action).undo =
      { undo_stack := s.undo_stack, redo_stack := [cs],
        command_buffer := [], world := undoBlock cs (execBlock cs s.world) } := by
    rw [h2]
    simp [HistoryManager.undo, List.getLast?_concat, List.dropLast_concat]
  refine ⟨h2, h3, ?_, ?_⟩
  · rw [h3]
    simp [HistoryManager.redo, List.getLast?_concat, List.dropLast_concat]
  · intro t c
    exact ⟨rfl, rfl⟩

/-- A sample command over the world `ℤ`: increment, undone by decrement. -/
def inc_command : Command ℤ := ⟨fun w => w + 1, fun w => w - 1⟩

/-- Witness for C6: one increment command on a fresh manager; after
`finish_action` one `undo` pops exactly that action and reverses its effect. -/
theorem history_group_undo_redo_witness :
    ((execCommands [inc_command] ⟨[], [], [], (0:ℤ)⟩).finish_action).undo =
      { undo_stack := [], redo_stack := [[inc_command]],
        command_buffer := [],
        world := undoBlock [inc_command] (execBlock [inc_command] 0) } :=
  (history_group_undo_redo ⟨[], [], [], (0:ℤ)⟩ [inc_command]
    (by simp) rfl).2.1

/-- C10: `undo` and `redo` leave the in-progress command buffer unchanged:
they are no-ops when the relevant stack is empty, and otherwise move exactly
one whole finished action between the stacks, transforming the world only
through that action's commands — commands still sitting in the buffer are
never undone, re-executed, or moved. -/
theorem undo_redo_preserve_buffer {W : Type} (s : HistoryManager W) :
    s.undo.command_buffer = s.command_buffer ∧
    s.redo.command_buffer = s.command_buffer ∧
    (s.undo_stack = [] → s.undo = s) ∧
    (s.redo_stack = [] → s.redo = s) ∧
    (∀ (l : List (List (Command W))) (b : List (Command W)),
      s.undo_stack = l ++ [b] →
      s.undo = { s with undo_stack := l, redo_stack := s.redo_stack ++ [b],
                        world := undoBlock b s.world }) ∧
    (∀ (l : List (List (Command W))) (b : List (Command W)),
      s.redo_stack = l ++ [b] →
      s.redo = { s with redo_stack := l, undo_stack := s.undo_stack ++ [b],
                        world := execBlock b s.world }) := by
  refine ⟨?_, ?_, ?_, ?_, ?_, ?_⟩
  · cases h : s.undo_stack.getLast? <;> simp [HistoryManager.undo, h]
  · cases h : s.redo_stack.getLast? <;> simp [HistoryManager.redo, h]
  · intro h; simp [HistoryManager.undo, h]
  · intro h; simp [HistoryManager.redo, h]
  · intro l b h
    simp [HistoryManager.undo, h, List.getLast?_concat, List.dropLast_concat]
  · intro l b h
    simp [HistoryManager.redo, h, List.getLast?_concat, List.dropLast_concat]

/-- Witness for C10: a manager with one finished action and a command in the
buffer; `undo` moves the action and leaves the buffer alone. -/
theorem undo_redo_preserve_buffer_witness :
    (HistoryManager.undo ⟨[[inc_command]], [], [inc_command], (5:ℤ)⟩) =
      { undo_stack := [], redo_stack := [] ++ [[inc_command]],
        command_buffer := [inc_command], world := undoBlock [inc_command] 5 } :=
  ((undo_redo_preserve_buffer ⟨[[inc_command]], [], [inc_command], (5:ℤ)⟩).2.2.2.2.1)
    [] [inc_command] rfl

/-! ## Cell-level laws of the chunk store

Needed for the save/load round-trip analysis: writing one cell changes
exactly that cell's stored value, because `(fdiv, fmod)` splits a global
coordinate injectively. -/

theorem coord_roundtrip (a b : ℤ) (hb : 0 < b) : a.fdiv b * b + a.fmod b = a := by
  rw [Int.fmod_eq_emod _ (le_of_lt hb), Int.fdiv_eq_ediv _ (le_of_lt hb)]
  have := Int.ediv_add_emod a b
  linarith

theorem coord_split_inj (a a' b : ℤ) (hb : 0 < b)
    (hd : a.fdiv b = a'.fdiv b) (hm : a.fmod b = a'.fmod b) : a = a' := by
  have h1 := coord_roundtrip a b hb
  have h2 := coord_roundtrip a' b hb
  rw [hd, hm] at h1
  linarith

theorem ChunkLayer.get_or_create_chunk_fst (l : ChunkLayer) (cc : ℤ × ℤ) :
    (l.get_or_create_chunk cc).1 = l.chunk_at cc := by
  cases h : l.chunks cc <;>
    simp [ChunkLayer.get_or_create_chunk, ChunkLayer.chunk_at, h]

theorem ChunkLayer.get_or_create_chunk_modified (l : ChunkLayer) (cc : ℤ × ℤ) :
    (l.get_or_create_chunk cc).2.modified_cells = l.modified_cells := by
  cases h : l.chunks cc <;> simp [ChunkLayer.get_or_create_chunk, h]

/-- `set_cell_data` adds the coordinate to `modified_cells` (set insertion). -/
theorem ChunkLayer.set_cell_data_modified (chunk_size : ℤ) (l : ChunkLayer)
    (g : ℤ × ℤ) (d : Cell) :
    (l.set_cell_data chunk_size g d).modified_cells = setInsert l.modified_cells g := by
  simp [ChunkLayer.set_cell_data, ChunkLayer.get_or_create_chunk_modified]

/-- Writing one cell changes exactly that cell's value. -/
theorem ChunkLayer.cell_at_set_cell_data (chunk_size : ℤ) (hcs : 0 < chunk_size)
    (l : ChunkLayer) (g g' : ℤ × ℤ) (d : Cell) :
    (l.set_cell_data chunk_size g d).cell_at chunk_size g' =
      if g' = g then d else l.cell_at chunk_size g' := by
  by_cases hg : g' = g
  · subst hg
    simp [ChunkLayer.set_cell_data, ChunkLayer.cell_at, ChunkLayer.chunk_at,
      global_coord_to_chunk_coord]
  · rw [if_neg hg]
    by_cases hcc : (g'.1.fdiv chunk_size, g'.2.fdiv chunk_size) =
        (g.1.fdiv chunk_size, g.2.fdiv chunk_size)
    · have hloc : ¬ (g'.1.fmod chunk_size = g.1.fmod chunk_size ∧
          g'.2.fmod chunk_size = g.2.fmod chunk_size) := by
        rintro ⟨hm1, hm2⟩
        apply hg
        have hd1 : g'.1.fdiv chunk_size = g.1.fdiv chunk_size := congrArg Prod.fst hcc
        have hd2 : g'.2.fdiv chunk_size = g.2.fdiv chunk_size := congrArg Prod.snd hcc
        have e1 := coord_split_inj g'.1 g.1 chunk_size hcs hd1 hm1
        have e2 := coord_split_inj g'.2 g.2 chunk_size hcs hd2 hm2
        exact Prod.ext e1 e2
      simp only [ChunkLayer.set_cell_data, ChunkLayer.cell_at, ChunkLayer.chunk_at,
        global_coord_to_chunk_coord]
      rw [if_pos hcc]
      simp only [Option.getD_some]
      rw [if_neg hloc, ChunkLayer.get_or_create_chunk_fst]
      simp only [ChunkLayer.chunk_at]
      rw [← hcc]
    · simp only [ChunkLayer.set_cell_data, ChunkLayer.cell_at, ChunkLayer.chunk_at,
        global_coord_to_chunk_coord]
      rw [if_neg hcc]
      have hbridge := l.chunk_at_get_or_create (g.1.fdiv chunk_size, g.2.fdiv chunk_size)
        (g'.1.fdiv chunk_size, g'.2.fdiv chunk_size)
      simp only [ChunkLayer.chunk_at] at hbridge
      rw [hbridge]

/-- Replaying a list of `(coordinate, color)` records onto a layer with
`set_cell_data`, as `load_map` does cell by cell. -/
def ChunkLayer.replay (chunk_size : ℤ) (rec : List ((ℤ × ℤ) × Cell))
    (l : ChunkLayer) : ChunkLayer :=
  rec.foldl (fun acc p => acc.set_cell_data chunk_size p.1 p.2) l

theorem ChunkLayer.replay_modified (chunk_size : ℤ) (rec : List ((ℤ × ℤ) × Cell))
    (l : ChunkLayer) (hnd : (rec.map Prod.fst).Nodup)
    (hdis : ∀ p ∈ rec, p.1 ∉ l.modified_cells) :
    (ChunkLayer.replay chunk_size rec l).modified_cells =
      l.modified_cells ++ rec.map Prod.fst := by
  induction rec generalizing l with
  | nil => simp [ChunkLayer.replay]
  | cons p rest ih =>
      simp only [List.map_cons, List.nodup_cons] at hnd
      have hmem : p.1 ∉ l.modified_cells := hdis p (List.mem_cons_self p rest)
      have hstep : (l.set_cell_data chunk_size p.1 p.2).modified_cells =
          l.modified_cells ++ [p.1] := by
        rw [ChunkLayer.set_cell_data_modified, setInsert, if_neg hmem]
      simp only [ChunkLayer.replay, List.foldl_cons] at *
      rw [ih]
      · rw [hstep]
        simp
      · exact hnd.2
      · intro q hq
        rw [hstep]
        simp only [List.mem_append, List.mem_singleton]
        rintro (h | h)
        · exact hdis q (List.mem_cons_of_mem p hq) h
        · exact hnd.1 (h ▸ List.mem_map_of_mem Prod.fst hq)

theorem ChunkLayer.replay_cell_at_notin (chunk_size : ℤ) (hcs : 0 < chunk_size)
    (rec : List ((ℤ × ℤ) × Cell)) (l : ChunkLayer) (g : ℤ × ℤ)
    (hg : g ∉ rec.map Prod.fst) :
    (ChunkLayer.replay chunk_size rec l).cell_at chunk_size g =
      l.cell_at chunk_size g := by
  induction rec generalizing l with
  | nil => rfl
  | cons p rest ih =>
      simp only [List.map_cons, List.mem_cons, not_or] at hg
      simp only [ChunkLayer.replay, List.foldl_cons] at *
      rw [ih _ hg.2, ChunkLayer.cell_at_set_cell_data chunk_size hcs, if_neg hg.1]

theorem ChunkLayer.replay_cell_at_mem (chunk_size : ℤ) (hcs : 0 < chunk_size)
    (rec : List ((ℤ × ℤ) × Cell)) (l : ChunkLayer) (g : ℤ × ℤ) (c : Cell)
    (hnd : (rec.map Prod.fst).Nodup) (hmem : (g, c) ∈ rec) :
    (ChunkLayer.replay chunk_size rec l).cell_at chunk_size g = c := by
  induction rec generalizing l with
  | nil => cases hmem
  | cons p rest ih =>
      rw [List.mem_cons] at hmem
      rw [List.map_cons, List.nodup_cons] at hnd
      rcases hmem with h | h
      · subst h
        simp only [ChunkLayer.replay, List.foldl_cons]
        have hrest := ChunkLayer.replay_cell_at_notin chunk_size hcs rest
          (l.set_cell_data chunk_size g c) g hnd.1
        simp only [ChunkLayer.replay] at hrest
        rw [hrest, ChunkLayer.cell_at_set_cell_data chunk_size hcs, if_pos rfl]
      · simp only [ChunkLayer.replay, List.foldl_cons] at *
        exact ih _ hnd.2 h

/-! ## File manager (`file_manager.py`)

The binary encoding (4-byte magic, uint32 version, int32/float32 cell
records via `struct.pack`/`struct.unpack`) is modelled at record level: a
file consists of its magic string, its version and, per saved layer in
stack order, the `(coordinate, color)` records in the order written. -/

def MAGIC_NUMBER : String := "HMAP"

def VERSION : ℕ := 1

/-- A `.hmap` file at record level. -/
structure SaveFile where
  magic : String
  version : ℕ
  layer_records : List (List ((ℤ × ℤ) × Cell))

/-- `FileManager.save_map(filepath)`: header, then for every layer in stack
order (via `get_all_modified_cells`) its modified-cell count and each
modified coordinate's color read from that layer's own storage
(`get_layer_cell_data`; its returned value is the `cell_at` view by
`ChunkLayer.get_cell_data_fst`, and the allocate-on-read it performs changes
no stored value, `ChunkLayer.chunk_at_get_or_create`). -/
def FileManager.save_map (chunk_size : ℤ) (e : ChunkEngine) : SaveFile :=
  { magic := MAGIC_NUMBER, version := VERSION,
    layer_records := e.layers.map (fun l =>
      l.modified_cells.map (fun coord => (coord, l.cell_at chunk_size coord))) }

/-- One cell record during `load_map`: `set_cell_data` through the engine
(into the active layer) followed by the explicit stack-level dirty-chunk
marking. -/
def load_cell (chunk_size : ℤ) (a : ChunkEngine) (p : (ℤ × ℤ) × Cell) : ChunkEngine :=
  let a1 := a.set_cell_data chunk_size p.1 p.2
  let cc := ((global_coord_to_chunk_coord p.1 chunk_size).1,
             (global_coord_to_chunk_coord p.1 chunk_size).2.1)
  { a1 with dirty_chunks := setInsert a1.dirty_chunks cc }

/-- One layer block during `load_map`: `insert_layer()` first, then the cell
records of the block. -/
def load_layer (chunk_size : ℤ) (a : ChunkEngine) (rec : List ((ℤ × ℤ) × Cell)) :
    ChunkEngine :=
  rec.foldl (load_cell chunk_size) a.insert_layer

/-- `FileManager.load_map(filepath)`: verify the magic number, then the
version — each failure raises `ValueError`, which the function's own
`except` clause catches, leaving the engine untouched — and only after both
checks pass `reset()` the engine and read the layer blocks. -/
def FileManager.load_map (chunk_size : ℤ) (e : ChunkEngine) (f : SaveFile) :
    ChunkEngine :=
  if f.magic ≠ MAGIC_NUMBER then e
  else if f.version ≠ VERSION then e
  else f.layer_records.foldl (load_layer chunk_size) (e.reset chunk_size)

theorem set_getD_self {α : Type} (l : List α) (i : ℕ) (d : α) (h : i < l.length) :
    l.set i (l.getD i d) = l := by
  apply List.ext_getElem?
  intro n
  by_cases hn : n = i
  · subst hn
    rw [List.getElem?_set_eq_of_lt _ h, List.getD_eq_getElem _ _ h,
      List.getElem?_eq_getElem h]
  · rw [List.getElem?_set_ne (by omega)]

theorem getD_set_self {α : Type} (l : List α) (i : ℕ) (d x : α) (h : i < l.length) :
    (l.set i x).getD i d = x := by
  rw [List.getD_eq_getElem _ _ (by simpa using h)]
  exact List.getElem_set_self _

/-- Folding the cell records of one layer block over the engine rewrites the
active layer by replaying the records onto it and touches no other layer. -/
theorem load_cells_fold (chunk_size : ℤ) (rec : List ((ℤ × ℤ) × Cell))
    (a : ChunkEngine) (ha : a.active_layer_idx < a.layers.length) :
    (rec.foldl (load_cell chunk_size) a).layers =
      a.layers.set a.active_layer_idx
        (ChunkLayer.replay chunk_size rec (a.layerD a.active_layer_idx)) ∧
    (rec.foldl (load_cell chunk_size) a).active_layer_idx = a.active_layer_idx ∧
    (rec.foldl (load_cell chunk_size) a).name_cnt = a.name_cnt := by
  induction rec generalizing a with
  | nil =>
      refine ⟨?_, rfl, rfl⟩
      simp only [ChunkLayer.replay, List.foldl_nil, ChunkEngine.layerD]
      rw [set_getD_self _ _ _ ha]
  | cons p rest ih =>
      have hstep : (load_cell chunk_size a p).layers =
          a.layers.set a.active_layer_idx
            ((a.layerD a.active_layer_idx).set_cell_data chunk_size p.1 p.2) := rfl
      have hact : (load_cell chunk_size a p).active_layer_idx = a.active_layer_idx := rfl
      have hname : (load_cell chunk_size a p).name_cnt = a.name_cnt := rfl
      have hlen : (load_cell chunk_size a p).layers.length = a.layers.length := by
        rw [hstep, List.length_set]
      obtain ⟨ih1, ih2, ih3⟩ := ih (load_cell chunk_size a p) (by rw [hact, hlen]; exact ha)
      refine ⟨?_, by rw [List.foldl_cons, ih2, hact],
        by rw [List.foldl_cons, ih3, hname]⟩
      rw [List.foldl_cons, ih1, hact, hstep, List.set_set]
      congr 1
      rw [ChunkEngine.layerD, ChunkEngine.layerD, hstep,
        getD_set_self _ _ _ _ ha]
      rfl

/-- The layers `load_map` constructs for the layer blocks `rs`, given the
name counter at the start: per block, a fresh `"Layer n"` with the block's
records replayed onto it. -/
def loaded_layers (chunk_size : ℤ) (name_cnt : ℕ) :
    List (List ((ℤ × ℤ) × Cell)) → List ChunkLayer
  | [] => []
  | r :: rs =>
      ChunkLayer.replay chunk_size r
          (ChunkLayer.mk_init ("Layer " ++ toString name_cnt)) ::
        loaded_layers chunk_size (name_cnt + 1) rs

theorem loaded_layers_length (chunk_size : ℤ) (n : ℕ)
    (rs : List (List ((ℤ × ℤ) × Cell))) :
    (loaded_layers chunk_size n rs).length = rs.length := by
  induction rs generalizing n with
  | nil => rfl
  | cons r rs ih => simp [loaded_layers, ih]

theorem loaded_layers_getD (chunk_size : ℤ) (n k : ℕ)
    (rs : List (List ((ℤ × ℤ) × Cell))) (hk : k < rs.length) :
    (loaded_layers chunk_size n rs).getD k ChunkLayer.mk_init =
      ChunkLayer.replay chunk_size (rs.getD k [])
        (ChunkLayer.mk_init ("Layer " ++ toString (n + k))) := by
  induction rs generalizing n k with
  | nil => cases hk
  | cons r rs ih =>
      cases k with
      | zero => simp [loaded_layers]
      | succ k =>
          have hk' : k < rs.length := by simpa using hk
          simp only [loaded_layers, List.getD_cons_succ]
          rw [ih (n + 1) k hk']
          have harith : n + 1 + k = n + (k + 1) := by omega
          rw [harith]

/-- Folding whole layer blocks over an engine whose active layer is its last
layer appends, per block, one fresh replayed layer. -/
theorem load_layers_fold (chunk_size : ℤ) (rs : List (List ((ℤ × ℤ) × Cell)))
    (a : ChunkEngine) (ha : a.active_layer_idx + 1 = a.layers.length) :
    (rs.foldl (load_layer chunk_size) a).layers =
      a.layers ++ loaded_layers chunk_size a.name_cnt rs := by
  induction rs generalizing a with
  | nil => simp [loaded_layers]
  | cons r rs ih =>
      set fresh := ChunkLayer.mk_init ("Layer " ++ toString a.name_cnt) with hfresh
      have hins : a.insert_layer.layers = a.layers ++ [fresh] := by
        rw [ChunkEngine.insert_layer, ha]
        exact List.insertIdx_length_self a.layers fresh
      have hinsact : a.insert_layer.active_layer_idx = a.active_layer_idx + 1 := rfl
      have hinsname : a.insert_layer.name_cnt = a.name_cnt + 1 := rfl
      have hinslt : a.insert_layer.active_layer_idx < a.insert_layer.layers.length := by
        rw [hinsact, hins, List.length_append, List.length_singleton, ha]
        omega
      obtain ⟨h1, h2, h3⟩ := load_cells_fold chunk_size r a.insert_layer hinslt
      have hfreshD : a.insert_layer.layerD a.insert_layer.active_layer_idx = fresh := by
        rw [ChunkEngine.layerD, hins, hinsact, ha,
          List.getD_append_right _ _ _ _ (le_refl _)]
        simp
      have hlayers1 : (load_layer chunk_size a r).layers =
          a.layers ++ [ChunkLayer.replay chunk_size r fresh] := by
        rw [load_layer, h1, hfreshD, hins, hinsact, ha,
          List.set_append_right _ _ (le_refl _)]
        simp
      have hact1 : (load_layer chunk_size a r).active_layer_idx =
          a.active_layer_idx + 1 := by
        rw [load_layer, h2, hinsact]
      have hname1 : (load_layer chunk_size a r).name_cnt = a.name_cnt + 1 := by
        rw [load_layer, h3, hinsname]
      have hinv : (load_layer chunk_size a r).active_layer_idx + 1 =
          (load_layer chunk_size a r).layers.length := by
        rw [hact1, hlayers1, List.length_append, List.length_singleton, ha]
      rw [List.foldl_cons, ih _ hinv, hlayers1, hname1]
      simp [loaded_layers, hfresh]

/-- An engine holding one painted cell: `(0,0)` in red on its single layer. -/
def one_cell_engine : ChunkEngine :=
  ChunkEngine.mk_init.set_cell_data default_chunk_size (0, 0) ⟨1, 0, 0, 1⟩

/-- A file whose magic number is not `"HMAP"`. -/
def bad_magic_file : SaveFile :=
  { magic := "XMAP", version := 1, layer_records := [] }

/-- C8 counterexample: `load_map` checks the magic number (and version)
BEFORE calling `reset()`, so a load that fails validation returns with the
previous map fully intact — here the painted cell `(0,0)` is still
modified — refuting the claim that the in-memory map has already been
cleared by the time validation fails. -/
theorem load_bad_magic_keeps_map :
    FileManager.load_map default_chunk_size one_cell_engine bad_magic_file =
      one_cell_engine ∧
    (one_cell_engine.layerD 0).modified_cells = [(0, 0)] := by
  constructor
  · rw [FileManager.load_map, if_pos (show bad_magic_file.magic ≠ MAGIC_NUMBER by decide)]
  · decide

/-- C8 (amended): validation precedes the reset — a `load_map` whose magic or
version check fails leaves the engine exactly as it was; the map is cleared
only after both checks pass. -/
theorem load_map_validates_before_reset (chunk_size : ℤ) (e : ChunkEngine)
    (f : SaveFile) (h : f.magic ≠ MAGIC_NUMBER ∨ f.version ≠ VERSION) :
    FileManager.load_map chunk_size e f = e := by
  rw [FileManager.load_map]
  rcases h with h | h
  · rw [if_pos h]
  · by_cases hm : f.magic ≠ MAGIC_NUMBER
    · rw [if_pos hm]
    · rw [if_neg hm, if_pos h]

/-- Witness for the amended C8 at a concrete bad-magic file. -/
theorem load_map_validates_before_reset_witness :
    FileManager.load_map default_chunk_size one_cell_engine bad_magic_file =
      one_cell_engine :=
  load_map_validates_before_reset default_chunk_size one_cell_engine bad_magic_file
    (Or.inl (by decide))

/-- C7 counterexample: saving the one-layer `one_cell_engine` and loading the
file into a fresh engine produces TWO layers — a new empty layer at index 0
and the saved layer's contents shifted to index 1 — not the same number of
layers with identical per-index contents. -/
theorem save_load_gains_extra_layer :
    (FileManager.load_map default_chunk_size ChunkEngine.mk_init
        (FileManager.save_map default_chunk_size one_cell_engine)).layers.length = 2 ∧
    one_cell_engine.layers.length = 1 ∧
    ((FileManager.load_map default_chunk_size ChunkEngine.mk_init
        (FileManager.save_map default_chunk_size one_cell_engine)).layerD 0).modified_cells
      = [] ∧
    ((FileManager.load_map default_chunk_size ChunkEngine.mk_init
        (FileManager.save_map default_chunk_size one_cell_engine)).layerD 1).modified_cells
      = [(0, 0)] :=
  ⟨by decide, by decide, by decide, by decide⟩

/-- C7 (amended): loading a saved map into any engine reproduces the saved
data shifted by one layer: the loaded engine has one more layer than was
saved, its layer 0 is a fresh empty layer, and for every saved layer index
`i` the loaded layer `i + 1` has an identical `modified_cells` set and
identical colors at every modified coordinate. -/
theorem save_load_roundtrip_layer_shift (chunk_size : ℤ) (e t : ChunkEngine)
    (hcs : 0 < chunk_size) (hnd : ∀ l ∈ e.layers, l.modified_cells.Nodup) :
    (FileManager.load_map chunk_size t (FileManager.save_map chunk_size e)).layers.length
        = e.layers.length + 1 ∧
    ((FileManager.load_map chunk_size t
        (FileManager.save_map chunk_size e)).layerD 0).modified_cells = [] ∧
    ∀ i, i < e.layers.length →
      (((FileManager.load_map chunk_size t
            (FileManager.save_map chunk_size e)).layerD (i+1)).modified_cells
          = (e.layerD i).modified_cells ∧
       ∀ g ∈ (e.layerD i).modified_cells,
         ((FileManager.load_map chunk_size t
             (FileManager.save_map chunk_size e)).layerD (i+1)).cell_at chunk_size g
           = (e.layerD i).cell_at chunk_size g) := by
  set f := FileManager.save_map chunk_size e with hf
  have hmagic : ¬ f.magic ≠ MAGIC_NUMBER := by simp [hf, FileManager.save_map]
  have hver : ¬ f.version ≠ VERSION := by simp [hf, FileManager.save_map]
  have hload : FileManager.load_map chunk_size t f =
      f.layer_records.foldl (load_layer chunk_size) (t.reset chunk_size) := by
    rw [FileManager.load_map, if_neg hmagic, if_neg hver]
  have ha : (t.reset chunk_size).active_layer_idx + 1 =
      (t.reset chunk_size).layers.length := rfl
  have hlayers : (FileManager.load_map chunk_size t f).layers =
      [ChunkLayer.mk_init] ++ loaded_layers chunk_size 1 f.layer_records := by
    rw [hload, load_layers_fold chunk_size _ _ ha]
    rfl
  have hreclen : f.layer_records.length = e.layers.length := by
    simp [hf, FileManager.save_map]
  refine ⟨?_, ?_, ?_⟩
  · rw [hlayers, List.length_append, loaded_layers_length, hreclen]
    simp [Nat.add_comm]
  · rw [ChunkEngine.layerD, hlayers]
    rfl
  · intro i hi
    have hld : (FileManager.load_map chunk_size t f).layerD (i+1) =
        ChunkLayer.replay chunk_size (f.layer_records.getD i [])
          (ChunkLayer.mk_init ("Layer " ++ toString (1 + i))) := by
      rw [ChunkEngine.layerD, hlayers,
        List.getD_append_right _ _ _ _ (by simp)]
      simpa using loaded_layers_getD chunk_size 1 i f.layer_records
        (by rw [hreclen]; exact hi)
    have hrec : f.layer_records.getD i [] =
        (e.layerD i).modified_cells.map
          (fun c => (c, (e.layerD i).cell_at chunk_size c)) := by
      rw [hf]
      simp only [FileManager.save_map]
      rw [List.getD_eq_getElem _ _ (by simpa using hi), List.getElem_map,
        ChunkEngine.layerD, List.getD_eq_getElem _ _ hi]
    have hkeys : (f.layer_records.getD i []).map Prod.fst =
        (e.layerD i).modified_cells := by
      rw [hrec, List.map_map]
      have hcomp : (Prod.fst ∘ fun c : ℤ × ℤ =>
          (c, (e.layerD i).cell_at chunk_size c)) = id := rfl
      rw [hcomp, List.map_id]
    have hmem_layer : e.layerD i ∈ e.layers := by
      rw [ChunkEngine.layerD, List.getD_eq_getElem _ _ hi]
      exact List.getElem_mem _
    have hnd_i : ((f.layer_records.getD i []).map Prod.fst).Nodup := by
      rw [hkeys]
      exact hnd _ hmem_layer
    constructor
    · rw [hld, ChunkLayer.replay_modified chunk_size _ _ hnd_i
        (by intro p hp; simp [ChunkLayer.mk_init]), hkeys]
      simp [ChunkLayer.mk_init]
    · intro g hg
      rw [hld]
      have hgmem : (g, (e.layerD i).cell_at chunk_size g) ∈
          f.layer_records.getD i [] := by
        rw [hrec]
        exact List.mem_map_of_mem _ hg
      exact ChunkLayer.replay_cell_at_mem chunk_size hcs _ _ g _ hnd_i hgmem

/-- Witness for the amended C7 at the one-cell engine. -/
theorem save_load_roundtrip_layer_shift_witness :
    (FileManager.load_map default_chunk_size ChunkEngine.mk_init
        (FileManager.save_map default_chunk_size one_cell_engine)).layers.length
      = one_cell_engine.layers.length + 1 :=
  (save_load_roundtrip_layer_shift default_chunk_size one_cell_engine
    ChunkEngine.mk_init (by decide) (by decide)).1

/-! ## Hex coordinate geometry (`map_helpers.py`)

World positions are Python floats in the source; they are modelled with
real numbers, and `math.sqrt(3)` with `Real.sqrt 3`. Python's `round`
rounds half to even; at every input evaluated below the rounded argument
is an exact integer, where Python's `round` and Lean's `round` agree. -/

/-- `map_helpers.get_center_position_from_global_coord(global_coord, hex_radius)`:
`x = hex_radius * 3 / 2 * col`, `y = hex_radius * sqrt(3) * (row + 0.5 * col)`. -/
noncomputable def get_center_position_from_global_coord
    (global_coord : ℤ × ℤ) (hex_radius : ℝ) : ℝ × ℝ :=
  (hex_radius * 3 / 2 * (global_coord.1 : ℝ),
   hex_radius * Real.sqrt 3 * ((global_coord.2 : ℝ) + 0.5 * (global_coord.1 : ℝ)))

/-- Python's `min(candidates, key=lambda item: item[1])` scan: the current
best is replaced only on a strictly smaller key, so the first minimal
element wins ties. -/
noncomputable def pyMinAux : ((ℤ × ℤ) × ℝ) → List ((ℤ × ℤ) × ℝ) → ((ℤ × ℤ) × ℝ)
  | best, [] => best
  | best, x :: xs => pyMinAux (if x.2 < best.2 then x else best) xs

/-- `min` over the candidate list; `min` of an empty list raises
`ValueError` in Python — the call site always passes nine candidates, so
the junk value of the empty case is never produced. -/
noncomputable def pyMin (l : List ((ℤ × ℤ) × ℝ)) : (ℤ × ℤ) × ℝ :=
  match l with
  | [] => ((0, 0), 0)
  | x :: xs => pyMinAux x xs

/-- The 3×3 candidate grid built by the nested
`for r_offset in range(-1, 2): for c_offset in range(-1, 2)` loops around the
rounded approximation, each candidate paired with its squared distance to
`global_pos`. -/
noncomputable def hex_candidates (global_pos : ℝ × ℝ) (hex_radius : ℝ)
    (col row : ℤ) : List ((ℤ × ℤ) × ℝ) :=
  ([-1, 0, 1] : List ℤ).flatMap (fun r_offset =>
    ([-1, 0, 1] : List ℤ).map (fun c_offset =>
      ((col + c_offset, row + r_offset),
       (global_pos.1 - (get_center_position_from_global_coord
           (col + c_offset, row + r_offset) hex_radius).1)^2 +
       (global_pos.2 - (get_center_position_from_global_coord
           (col + c_offset, row + r_offset) hex_radius).2)^2)))

/-- `map_helpers.global_pos_to_global_coord(global_pos, hex_radius)`:
`col_approx = x / (1.5 * hex_radius)`,
`row_approx = y / (sqrt(3) * hex_radius) - x / 3` (note: the second term
divides by the constant 3, not by `3 * hex_radius`), round both, then return
the squared-distance minimizer over the 3×3 candidate neighborhood. -/
noncomputable def global_pos_to_global_coord (global_pos : ℝ × ℝ)
    (hex_radius : ℝ) : ℤ × ℤ :=
  let col := round (global_pos.1 / (1.5 * hex_radius))
  let row := round (global_pos.2 / (Real.sqrt 3 * hex_radius) - global_pos.1 / 3)
  (pyMin (hex_candidates global_pos hex_radius col row)).1

theorem pyMinAux_cons_lt (best x : (ℤ × ℤ) × ℝ) (xs : List ((ℤ × ℤ) × ℝ))
    (h : x.2 < best.2) : pyMinAux best (x :: xs) = pyMinAux x xs := by
  rw [pyMinAux, if_pos h]

theorem pyMinAux_cons_ge (best x : (ℤ × ℤ) × ℝ) (xs : List ((ℤ × ℤ) × ℝ))
    (h : ¬ x.2 < best.2) : pyMinAux best (x :: xs) = pyMinAux best xs := by
  rw [pyMinAux, if_neg h]

/-- Squared distance from the center of `(10, 0)` at `hex_radius = 2` — the
point `(30, 10√3)` — to the center of any candidate `(c, r)`, as a rational
expression (using `(√3)² = 3`). -/
theorem dist_sq_eval (c r : ℤ) :
    ((30:ℝ) - (get_center_position_from_global_coord (c, r) 2).1)^2 +
      (10 * Real.sqrt 3 - (get_center_position_from_global_coord (c, r) 2).2)^2
    = ((30:ℝ) - 3*(c:ℝ))^2 + 3 * ((10:ℝ) - 2*(r:ℝ) - (c:ℝ))^2 := by
  have hs : Real.sqrt 3 ^ 2 = 3 := Real.sq_sqrt (by norm_num)
  simp only [get_center_position_from_global_coord]
  have h2 : (10:ℝ) * Real.sqrt 3 - 2 * Real.sqrt 3 * ((r:ℝ) + 0.5 * (c:ℝ))
      = Real.sqrt 3 * ((10:ℝ) - 2*(r:ℝ) - (c:ℝ)) := by ring
  rw [h2, mul_pow, hs]
  ring

/-- C9 (code bug): at `hex_radius = 2` the round trip fails. The center of
cell `(10, 0)` is `(30, 10√3)`, but `global_pos_to_global_coord` computes
`row_approx = y/(√3·2) − x/3 = 5 − 10 = −5` — the `x/3` term omits the
`hex_radius` factor — so the 3×3 candidate search around `(10, −5)` never
sees `(10, 0)` and the function returns `(11, −4)`: not the cell whose
center the input is (that cell is at squared distance 0, every candidate at
squared distance ≥ 156), contradicting the claim and the function's own
docstring, which promises the nearest cell. -/
theorem hex_roundtrip_fails_at_radius_two :
    global_pos_to_global_coord
        (get_center_position_from_global_coord (10, 0) 2) 2 = (11, -4) ∧
    ((11, -4) : ℤ × ℤ) ≠ ((10, 0) : ℤ × ℤ) := by
  refine ⟨?_, by decide⟩
  have hs0 : (0:ℝ) < Real.sqrt 3 := Real.sqrt_pos.mpr (by norm_num)
  have hsne : Real.sqrt 3 ≠ 0 := ne_of_gt hs0
  have hpos : get_center_position_from_global_coord (10, 0) 2
      = (30, 10 * Real.sqrt 3) := by
    simp only [get_center_position_from_global_coord, Prod.mk.injEq]
    constructor
    · norm_num
    · push_cast
      ring
  rw [hpos]
  show (pyMin (hex_candidates (30, 10 * Real.sqrt 3) 2
      (round ((30:ℝ) / (1.5 * 2)))
      (round ((10 * Real.sqrt 3) / (Real.sqrt 3 * 2) - (30:ℝ) / 3)))).1 = (11, -4)
  have h1 : round ((30:ℝ) / (1.5 * 2)) = (10:ℤ) := by
    have hx : (30:ℝ) / (1.5 * 2) = ((10:ℤ):ℝ) := by norm_num
    rw [hx, round_intCast]
  have h2 : round ((10 * Real.sqrt 3) / (Real.sqrt 3 * 2) - (30:ℝ) / 3) = (-5:ℤ) := by
    have hx : (10 * Real.sqrt 3) / (Real.sqrt 3 * 2) - (30:ℝ) / 3 = ((-5:ℤ):ℝ) := by
      push_cast
      field_simp
      ring
    rw [hx, round_intCast]
  rw [h1, h2]
  have hcand : hex_candidates (30, 10 * Real.sqrt 3) 2 10 (-5) =
      [((9, -6), (516:ℝ)), ((10, -6), 432), ((11, -6), 372),
       ((9, -5), 372), ((10, -5), 300), ((11, -5), 252),
       ((9, -4), 252), ((10, -4), 192), ((11, -4), 156)] := by
    simp only [hex_candidates, List.flatMap_cons, List.flatMap_nil, List.map_cons,
      List.map_nil, List.append_nil, List.cons_append, List.nil_append]
    norm_num [dist_sq_eval]
  rw [hcand]
  simp only [pyMin]
  rw [pyMinAux_cons_lt _ _ _ (by norm_num)]
  rw [pyMinAux_cons_lt _ _ _ (by norm_num)]
  rw [pyMinAux_cons_ge _ _ _ (by norm_num)]
  rw [pyMinAux_cons_lt _ _ _ (by norm_num)]
  rw [pyMinAux_cons_lt _ _ _ (by norm_num)]
  rw [pyMinAux_cons_ge _ _ _ (by norm_num)]
  rw [pyMinAux_cons_lt _ _ _ (by norm_num)]
  rw [pyMinAux_cons_lt _ _ _ (by norm_num)]
  rfl

end HexaMapper
